import Mathlib

/-!
Verification of the dice-mining validator core
(`src/validation/gameRules.ts`, `src/types.ts`, `src/vision/diceDetector.ts`).

The TypeScript source is shallowly embedded: JS numbers are modelled as
exact rationals (`ℚ`), integer-valued fields (pip totals, difficulty,
column indices) as `ℤ`/`ℕ`, and JS `Array.prototype.sort` — which is
stable — as `List.insertionSort`, a stable sort, which therefore computes
exactly the same list for a given comparator.  Error messages pushed to a
block's `errors` array are modelled by an inductive type carrying the
same data that the source interpolates into each string.
-/

namespace DiceMining

/-- The six die colors (`DiceColor` in `src/types.ts`). -/
inductive DiceColor where
  | red
  | orange
  | yellow
  | green
  | blue
  | purple
  deriving DecidableEq, Fintype

/-- JS `Array.prototype.sort()` with no comparator sorts the color *strings*
lexicographically: "blue" < "green" < "orange" < "purple" < "red" < "yellow".
`colorKey` is the rank of each color name in that order. -/
def colorKey : DiceColor → ℕ
  | .blue => 0
  | .green => 1
  | .orange => 2
  | .purple => 3
  | .red => 4
  | .yellow => 5

/-- The order in which JS sorts color strings. -/
def colorLe (a b : DiceColor) : Prop := colorKey a ≤ colorKey b

instance : DecidableRel colorLe := fun a b =>
  inferInstanceAs (Decidable (colorKey a ≤ colorKey b))

instance : IsTotal DiceColor colorLe := ⟨by decide⟩

instance : IsTrans DiceColor colorLe := ⟨by decide⟩

instance : IsAntisymm DiceColor colorLe := ⟨by decide⟩

/-- JS sorting an array that may contain `undefined` (modelled as `none`)
puts all `undefined` entries after every defined one. -/
def optColorKey : Option DiceColor → ℕ
  | none => 6
  | some c => colorKey c

/-- Sort order used on arrays of possibly-`undefined` colors. -/
def optColorLe (a b : Option DiceColor) : Prop := optColorKey a ≤ optColorKey b

instance : DecidableRel optColorLe := fun a b =>
  inferInstanceAs (Decidable (optColorKey a ≤ optColorKey b))

instance : IsTotal (Option DiceColor) optColorLe := ⟨by decide⟩

instance : IsTrans (Option DiceColor) optColorLe := ⟨by decide⟩

instance : IsAntisymm (Option DiceColor) optColorLe := ⟨by decide⟩

/-- `colors.sort()` on an array of color strings. -/
def sortColors (l : List DiceColor) : List DiceColor := List.insertionSort colorLe l

/-- `.sort()` on an array of colors that may contain `undefined`. -/
def sortOptColors (l : List (Option DiceColor)) : List (Option DiceColor) :=
  List.insertionSort optColorLe l

/-- Axis-aligned bounding box of a detected die (`bounds` in `src/types.ts`). -/
structure Bounds where
  x : ℚ
  y : ℚ
  width : ℚ
  height : ℚ
  deriving DecidableEq

/-- A detected die (`DetectedDie` in `src/types.ts`). -/
structure DetectedDie where
  color : DiceColor
  pips : ℕ
  confidence : ℚ
  bounds : Bounds
  deriving DecidableEq

/-- Center position of a block (`position` in `src/types.ts`). -/
structure Pos where
  x : ℚ
  y : ℚ
  deriving DecidableEq

/-- A detected block (`DetectedBlock` in `src/types.ts`). -/
structure DetectedBlock where
  id : String
  dice : List DetectedDie
  total : ℤ
  trayColor : String
  position : Pos
  column : ℤ
  deriving DecidableEq

/-- `VALUE_TO_COLOR` in `src/types.ts`: a `Record<number, DiceColor>` with
keys 1..6; indexing with any other number yields `undefined` (`none`). -/
def VALUE_TO_COLOR : ℕ → Option DiceColor
  | 1 => some .red
  | 2 => some .orange
  | 3 => some .yellow
  | 4 => some .green
  | 5 => some .blue
  | 6 => some .purple
  | _ => none

/-- `GENESIS_PATTERN` in `src/types.ts`: 2 red, 2 orange, 2 yellow, 3 green. -/
def GENESIS_PATTERN : List DiceColor :=
  [.red, .red, .orange, .orange, .yellow, .yellow, .green, .green, .green]

/-- `GENESIS_VALUES` in `src/types.ts`. -/
def GENESIS_VALUES : List ℤ := [1, 1, 2, 2, 3, 3, 4, 4, 4]

/-- `getRequiredColors` in `src/validation/gameRules.ts`. -/
def getRequiredColors (dice : List DetectedDie) : List (Option DiceColor) :=
  dice.map (fun d => VALUE_TO_COLOR d.pips)

/-- `isGenesisBlock` in `src/validation/gameRules.ts`.  The source checks
equal length and then element-wise equality of the two sorted arrays, which
is exactly equality of the sorted lists. -/
def isGenesisBlock (block : DetectedBlock) : Bool :=
  let colors := sortColors (block.dice.map (fun d => d.color))
  let genesisColors := sortColors GENESIS_PATTERN
  decide (colors = genesisColors)

/-- `canBePredecessor` in `src/validation/gameRules.ts`.  Block B's colors
(all defined, hence injected with `some`) must match, after sorting, the
colors required by block A's pip values (possibly containing `undefined`). -/
def canBePredecessor (blockA blockB : DetectedBlock) : Bool :=
  let requiredColors := getRequiredColors blockA.dice
  let actualColors := blockB.dice.map (fun d => d.color)
  decide (sortOptColors requiredColors = sortOptColors (actualColors.map some))

/-- `Math.round` in JS rounds half-way cases toward `+∞`. -/
def jsRound (q : ℚ) : ℤ := ⌊q + 1 / 2⌋

/-- `Math.max(...list)` for a nonempty list.  (JS yields `-Infinity` on an
empty spread; the source only applies it to a block's dice and no claim
exercises a block with no dice, so the empty case is modelled as `0`.) -/
def maxList : List ℚ → ℚ
  | [] => 0
  | a :: t => t.foldl max a

/-- Per-block summand of the column-width estimate in `assignColumns`:
`Math.max(...diceWidths) * 3`. -/
def blockGridWidth (b : DetectedBlock) : ℚ :=
  maxList (b.dice.map (fun d => d.bounds.width)) * 3

/-- The `avgWidth` accumulator of `assignColumns`. -/
def avgBlockWidth (blocks : List DetectedBlock) : ℚ :=
  (blocks.map blockGridWidth).sum / (blocks.length : ℚ)

/-- Comparator `(a, b) => a.position.x - b.position.x`. -/
def posXLe (a b : DetectedBlock) : Prop := a.position.x ≤ b.position.x

instance : DecidableRel posXLe := fun a b =>
  inferInstanceAs (Decidable (a.position.x ≤ b.position.x))

instance : IsTotal DetectedBlock posXLe := ⟨fun a b => le_total a.position.x b.position.x⟩

instance : IsTrans DetectedBlock posXLe := ⟨fun _ _ _ h h' => le_trans h h'⟩

/-- `assignColumns` in `src/validation/gameRules.ts`.  `avgWidth` (and hence
`columnWidth`) is computed by the same expression in both branches of the
source, so it is hoisted here. -/
def assignColumns (blocks : List DetectedBlock) : List DetectedBlock :=
  match blocks with
  | [] => []
  | b0 :: _ =>
    let columnWidth := avgBlockWidth blocks * (3 / 2)
    match blocks.find? (fun b => isGenesisBlock b) with
    | none =>
      -- no genesis: leftmost block anchors column 0
      let minX := ((List.insertionSort posXLe blocks).headD b0).position.x
      blocks.map (fun block =>
        { block with column := jsRound ((block.position.x - minX) / columnWidth) })
    | some genesisBlock =>
      let genesisX := genesisBlock.position.x
      let blocksToRight := (blocks.filter (fun b => decide (genesisX < b.position.x))).length
      let blocksToLeft := (blocks.filter (fun b => decide (b.position.x < genesisX))).length
      let direction : ℚ := if blocksToLeft ≤ blocksToRight then 1 else -1
      blocks.map (fun block =>
        { block with
          column := max 0 (jsRound ((block.position.x - genesisX) * direction / columnWidth)) })

/-- The diagnostic messages `buildChain` pushes onto a block's `errors`
array, carrying the data the source interpolates into each string. -/
inductive BuildErr where
  | genesisWrongColumn
  | genesisTotalMismatch (total expected : ℤ)
  | exceedsDifficulty (total difficulty : ℤ)
  | noPredecessorCandidates (column : ℤ)
  | noMatchingPredecessor
  | requiredVsActual (required : List (Option DiceColor)) (actual : List DiceColor)
  deriving DecidableEq

/-- `ValidatedBlock` in `src/types.ts`. -/
structure ValidatedBlock extends DetectedBlock where
  isGenesis : Bool
  predecessorId : Option String
  isValid : Bool
  errors : List BuildErr
  requiredColors : List (Option DiceColor)
  deriving DecidableEq

/-- Body of the validation loop of `buildChain` in
`src/validation/gameRules.ts`: validates `block` against the blocks already
validated (`validatedBlocks`). -/
def validateBlock (difficulty : ℤ) (validatedBlocks : List ValidatedBlock)
    (block : DetectedBlock) : ValidatedBlock :=
  if isGenesisBlock block then
    { toDetectedBlock := block
      isGenesis := true
      predecessorId := none
      isValid := decide (block.column = 0)
      errors :=
        (if block.column ≠ 0 then [BuildErr.genesisWrongColumn] else []) ++
        (if block.total ≠ GENESIS_VALUES.sum then
          [BuildErr.genesisTotalMismatch block.total GENESIS_VALUES.sum] else [])
      requiredColors := getRequiredColors block.dice }
  else
    let predecessorCandidates := validatedBlocks.filter
      (fun vb => decide (vb.column = block.column - 1) && vb.isValid)
    let found := predecessorCandidates.find?
      (fun candidate => canBePredecessor candidate.toDetectedBlock block)
    { toDetectedBlock := block
      isGenesis := false
      predecessorId := found.map (fun candidate => candidate.id)
      isValid := decide (block.total ≤ difficulty) &&
        !predecessorCandidates.isEmpty && found.isSome
      errors :=
        (if difficulty < block.total then
          [BuildErr.exceedsDifficulty block.total difficulty] else []) ++
        (if predecessorCandidates.isEmpty then
          [BuildErr.noPredecessorCandidates (block.column - 1)]
        else if found.isSome then []
        else
          BuildErr.noMatchingPredecessor ::
          (match predecessorCandidates with
           | [pred] =>
             [BuildErr.requiredVsActual (getRequiredColors pred.dice)
               (block.dice.map (fun d => d.color))]
           | _ => []))
      requiredColors := getRequiredColors block.dice }

/-- The `for (const block of sortedBlocks)` loop of `buildChain`. -/
def buildChainLoop (difficulty : ℤ) (acc : List ValidatedBlock) :
    List DetectedBlock → List ValidatedBlock
  | [] => acc
  | block :: rest =>
    buildChainLoop difficulty (acc ++ [validateBlock difficulty acc block]) rest

/-- Comparator `(a, b) => a.column - b.column`. -/
def columnLe (a b : DetectedBlock) : Prop := a.column ≤ b.column

instance : DecidableRel columnLe := fun a b =>
  inferInstanceAs (Decidable (a.column ≤ b.column))

instance : IsTotal DetectedBlock columnLe := ⟨fun a b => le_total a.column b.column⟩

instance : IsTrans DetectedBlock columnLe := ⟨fun _ _ _ h h' => le_trans h h'⟩

/-- `buildChain` in `src/validation/gameRules.ts`. -/
def buildChain (blocks : List DetectedBlock) (difficulty : ℤ) : List ValidatedBlock :=
  match blocks with
  | [] => []
  | _ :: _ =>
    let blocksWithColumns := assignColumns blocks
    let sortedBlocks := List.insertionSort columnLe blocksWithColumns
    buildChainLoop difficulty [] sortedBlocks

/-- The `children` adjacency map of `findLongestChain`: the map entry for
key `p` lists, in block order, the ids of blocks with a truthy (non-empty)
`predecessorId` equal to `p` and `isValid` set. -/
def childrenOf (blocks : List ValidatedBlock) (p : String) : List String :=
  (blocks.filter
    (fun b => decide (b.predecessorId = some p) && !p.isEmpty && b.isValid)).map
    (fun b => b.id)

/-- The `longestChild` accumulation loop of `findLongestFromNode`: keeps the
first strictly-longest chain among the candidates. -/
def pickLongest (cands : List (List String)) : List String :=
  cands.foldl (fun best c => if best.length < c.length then c else best) []

/-- `findLongestFromNode` in `src/validation/gameRules.ts`.  The source is
plain recursion; it is modelled with explicit fuel (structural recursion).
`findLongestChain` passes `blocks.length` fuel, which is shown sufficient
for every `buildChain` output with pairwise-distinct ids. -/
def findLongestFromNode (children : String → List String) :
    ℕ → String → List String
  | 0, nodeId => [nodeId]
  | fuel + 1, nodeId =>
    let childIds := children nodeId
    if childIds.isEmpty then [nodeId]
    else nodeId :: pickLongest (childIds.map (findLongestFromNode children fuel))

/-- `findLongestChain` in `src/validation/gameRules.ts`. -/
def findLongestChain (blocks : List ValidatedBlock) : List String :=
  if blocks.isEmpty then []
  else
    match blocks.find? (fun b => b.isGenesis) with
    | none => []
    | some genesis => findLongestFromNode (childrenOf blocks) blocks.length genesis.id

/-- `ValidationResult` in `src/types.ts`. -/
structure ValidationResult where
  blocks : List ValidatedBlock
  longestChain : List String
  totalBlocks : ℕ
  validBlocks : ℕ
  invalidBlocks : ℕ
  difficulty : ℤ
  deriving DecidableEq

/-- `validateBlocks` in `src/validation/gameRules.ts`. -/
def validateBlocks (blocks : List DetectedBlock) (difficulty : ℤ) : ValidationResult :=
  let validatedBlocks := buildChain blocks difficulty
  let longestChain := findLongestChain validatedBlocks
  { blocks := validatedBlocks
    longestChain := longestChain
    totalBlocks := validatedBlocks.length
    validBlocks := (validatedBlocks.filter (fun b => b.isValid)).length
    invalidBlocks := (validatedBlocks.filter (fun b => !b.isValid)).length
    difficulty := difficulty }

/-- Squared distance between the `bounds` corners of two dice.  The source
(`groupDiceIntoBlocks` in `src/vision/diceDetector.ts`) compares
`Math.sqrt(dist2) < clusterThreshold`; since the threshold is nonnegative
for the detector's nonnegative die sizes, this is equivalent to comparing
the squares, which is how it is modelled throughout. -/
def dist2 (a b : Bounds) : ℚ := (a.x - b.x) ^ 2 + (a.y - b.y) ^ 2

/-- The inner `for (const clusterDie of cluster)` proximity test of
`groupDiceIntoBlocks`. -/
def isNearCluster (thr2 : ℚ) (cluster : List DetectedDie) (d : DetectedDie) : Bool :=
  cluster.any (fun clusterDie => decide (dist2 d.bounds clusterDie.bounds < thr2))

/-- The single `for (j = i+1; ...)` absorption scan of `groupDiceIntoBlocks`:
processes the remaining dice once, in order, moving each die that is near
some die already in the cluster into the cluster; returns the grown cluster
and the dice left unused (in their original order). -/
def absorb (thr2 : ℚ) (cluster : List DetectedDie) :
    List DetectedDie → List DetectedDie × List DetectedDie
  | [] => (cluster, [])
  | d :: rest =>
    if isNearCluster thr2 cluster d then absorb thr2 (cluster ++ [d]) rest
    else
      let p := absorb thr2 cluster rest
      (p.1, d :: p.2)

theorem absorb_snd_length_le (thr2 : ℚ) :
    ∀ (l : List DetectedDie) (cluster : List DetectedDie),
      ((absorb thr2 cluster l).2).length ≤ l.length := by
  intro l
  induction l with
  | nil => intro cluster; simp [absorb]
  | cons d rest ih =>
    intro cluster
    by_cases h : isNearCluster thr2 cluster d = true
    · simpa [absorb, h] using Nat.le_succ_of_le (ih (cluster ++ [d]))
    · simpa [absorb, h] using ih cluster

/-- The outer `for (i = 0; ...)` loop of `groupDiceIntoBlocks`, with explicit
fuel for structural recursion; `absorb_snd_length_le` shows that fuel equal
to the list's length (as passed by `clustersOf`) always suffices, so the
fuel never runs out on the actual call. -/
def clusterLoopF (thr2 : ℚ) : ℕ → List DetectedDie → List (List DetectedDie)
  | 0, _ => []
  | _ + 1, [] => []
  | fuel + 1, d :: rest =>
    let p := absorb thr2 [d] rest
    p.1 :: clusterLoopF thr2 fuel p.2

/-- `avgDieSize` in `groupDiceIntoBlocks`. -/
def avgDieSize (dice : List DetectedDie) : ℚ :=
  (dice.map (fun d => (d.bounds.width + d.bounds.height) / 2)).sum / (dice.length : ℚ)

/-- The square of `clusterThreshold = avgDieSize * 2.5`. -/
def clusterThreshold2 (dice : List DetectedDie) : ℚ :=
  (avgDieSize dice * (5 / 2)) ^ 2

/-- Comparator `(a, b) => a.bounds.x - b.bounds.x` used to sort dice. -/
def dieXLe (a b : DetectedDie) : Prop := a.bounds.x ≤ b.bounds.x

instance : DecidableRel dieXLe := fun a b =>
  inferInstanceAs (Decidable (a.bounds.x ≤ b.bounds.x))

instance : IsTotal DetectedDie dieXLe := ⟨fun a b => le_total a.bounds.x b.bounds.x⟩

instance : IsTrans DetectedDie dieXLe := ⟨fun _ _ _ h h' => le_trans h h'⟩

/-- The clusters formed by `groupDiceIntoBlocks` (before the size-based
acceptance filter): greedy single-pass clustering of the x-sorted dice. -/
def clustersOf (dice : List DetectedDie) : List (List DetectedDie) :=
  let sortedDice := List.insertionSort dieXLe dice
  clusterLoopF (clusterThreshold2 dice) sortedDice.length sortedDice

/-- x-coordinate of a die's center. -/
def dieCenterX (d : DetectedDie) : ℚ := d.bounds.x + d.bounds.width / 2

/-- y-coordinate of a die's center. -/
def dieCenterY (d : DetectedDie) : ℚ := d.bounds.y + d.bounds.height / 2

/-- Block construction for an accepted cluster in `groupDiceIntoBlocks`. -/
def mkBlock (idx : ℕ) (cluster : List DetectedDie) : DetectedBlock :=
  { id := "block-" ++ toString idx
    dice := cluster
    total := (cluster.map (fun d => (d.pips : ℤ))).sum
    trayColor := "#888888"
    position :=
      { x := (cluster.map dieCenterX).sum / (cluster.length : ℚ)
        y := (cluster.map dieCenterY).sum / (cluster.length : ℚ) }
    column := 0 }

/-- `groupDiceIntoBlocks` in `src/vision/diceDetector.ts`. -/
def groupDiceIntoBlocks (dice : List DetectedDie) : List DetectedBlock :=
  match dice with
  | [] => []
  | _ :: _ =>
    let accepted := (clustersOf dice).filter
      (fun c => decide (7 ≤ c.length) && decide (c.length ≤ 11))
    accepted.mapIdx (fun idx c => mkBlock idx c)

/-- Squared Euclidean center-to-center distance between two dice (the
distance named by the specification of the block grouper). -/
def centerDist2 (a b : DetectedDie) : ℚ :=
  (dieCenterX a - dieCenterX b) ^ 2 + (dieCenterY a - dieCenterY b) ^ 2

/-- The specification's clustering graph: two dice of the input are adjacent
when their Euclidean center-to-center distance is below
`clusterThreshold = avgDieSize * 2.5` (stated on squares). -/
def specAdjacent (dice : List DetectedDie) (a b : DetectedDie) : Prop :=
  a ∈ dice ∧ b ∈ dice ∧ centerDist2 a b < clusterThreshold2 dice

/-- Connectivity (same connected component) in the specification's graph. -/
def Linked (dice : List DetectedDie) : DetectedDie → DetectedDie → Prop :=
  Relation.ReflTransGen (specAdjacent dice)

/-- Two dice land in the same cluster formed by `groupDiceIntoBlocks`. -/
def sameCluster (dice : List DetectedDie) (a b : DetectedDie) : Prop :=
  ∃ c ∈ clustersOf dice, a ∈ c ∧ b ∈ c

/-- The graph the code actually thresholds on: corner-to-corner (`bounds.x`,
`bounds.y`) distance below the threshold, restricted to the input dice. -/
def codeAdjacent (thr2 : ℚ) (dice : List DetectedDie) (a b : DetectedDie) : Prop :=
  a ∈ dice ∧ b ∈ dice ∧ dist2 a.bounds b.bounds < thr2

/-- Connectivity in the code's corner-distance graph. -/
def LinkedWithin (thr2 : ℚ) (dice : List DetectedDie) : DetectedDie → DetectedDie → Prop :=
  Relation.ReflTransGen (codeAdjacent thr2 dice)

/-- Two stably sorted lists are equal iff the original lists are permutations
of one another (for a total, transitive, antisymmetric order). -/
theorem insertionSort_eq_iff_perm {α : Type} (r : α → α → Prop) [DecidableRel r]
    [IsTotal α r] [IsTrans α r] [IsAntisymm α r] {l₁ l₂ : List α} :
    List.insertionSort r l₁ = List.insertionSort r l₂ ↔ l₁.Perm l₂ := by
  constructor
  · intro h
    exact (List.perm_insertionSort r l₁).symm.trans (h ▸ List.perm_insertionSort r l₂)
  · intro h
    exact List.eq_of_perm_of_sorted
      ((List.perm_insertionSort r l₁).trans (h.trans (List.perm_insertionSort r l₂).symm))
      (List.sorted_insertionSort r l₁) (List.sorted_insertionSort r l₂)

theorem GENESIS_VALUES_sum : GENESIS_VALUES.sum = 24 := by decide

/-- `validateBlock` keeps the underlying block's fields. -/
theorem validateBlock_toDetectedBlock (difficulty : ℤ) (acc : List ValidatedBlock)
    (b : DetectedBlock) : (validateBlock difficulty acc b).toDetectedBlock = b := by
  unfold validateBlock
  split <;> rfl

theorem validateBlock_id (difficulty : ℤ) (acc : List ValidatedBlock) (b : DetectedBlock) :
    (validateBlock difficulty acc b).id = b.id := by
  rw [show (validateBlock difficulty acc b).id
      = (validateBlock difficulty acc b).toDetectedBlock.id from rfl,
    validateBlock_toDetectedBlock]

theorem validateBlock_column (difficulty : ℤ) (acc : List ValidatedBlock) (b : DetectedBlock) :
    (validateBlock difficulty acc b).column = b.column := by
  rw [show (validateBlock difficulty acc b).column
      = (validateBlock difficulty acc b).toDetectedBlock.column from rfl,
    validateBlock_toDetectedBlock]

theorem validateBlock_total (difficulty : ℤ) (acc : List ValidatedBlock) (b : DetectedBlock) :
    (validateBlock difficulty acc b).total = b.total := by
  rw [show (validateBlock difficulty acc b).total
      = (validateBlock difficulty acc b).toDetectedBlock.total from rfl,
    validateBlock_toDetectedBlock]

theorem validateBlock_isGenesis (difficulty : ℤ) (acc : List ValidatedBlock)
    (b : DetectedBlock) : (validateBlock difficulty acc b).isGenesis = isGenesisBlock b := by
  unfold validateBlock
  split <;> simp_all

/-- Every element of the validation loop's output is either carried over
from the accumulator or produced by `validateBlock` on an input block. -/
theorem buildChainLoop_mem (difficulty : ℤ) :
    ∀ (l : List DetectedBlock) (acc : List ValidatedBlock) (v : ValidatedBlock),
      v ∈ buildChainLoop difficulty acc l →
      v ∈ acc ∨ ∃ a b, b ∈ l ∧ v = validateBlock difficulty a b := by
  intro l
  induction l with
  | nil => intro acc v hv; exact Or.inl hv
  | cons block rest ih =>
    intro acc v hv
    rcases ih (acc ++ [validateBlock difficulty acc block]) v hv with h | ⟨a, b, hb, hvb⟩
    · rcases List.mem_append.mp h with h | h
      · exact Or.inl h
      · refine Or.inr ⟨acc, block, List.mem_cons_self _ _, ?_⟩
        simpa using h
    · exact Or.inr ⟨a, b, List.mem_cons_of_mem _ hb, hvb⟩

/-- Every block of a `buildChain` output is a `validateBlock` result. -/
theorem buildChain_mem {blocks : List DetectedBlock} {difficulty : ℤ}
    {v : ValidatedBlock} (hv : v ∈ buildChain blocks difficulty) :
    ∃ a b, v = validateBlock difficulty a b := by
  unfold buildChain at hv
  rcases blocks with _ | ⟨b0, rest⟩
  · simp at hv
  · rcases buildChainLoop_mem difficulty _ _ _ hv with h | ⟨a, b, _, hvb⟩
    · simp at h
    · exact ⟨a, b, hvb⟩

theorem buildChainLoop_length (difficulty : ℤ) :
    ∀ (l : List DetectedBlock) (acc : List ValidatedBlock),
      (buildChainLoop difficulty acc l).length = acc.length + l.length := by
  intro l
  induction l with
  | nil => intro acc; simp [buildChainLoop]
  | cons block rest ih =>
    intro acc
    rw [buildChainLoop, ih]
    simp
    omega

theorem buildChainLoop_ids (difficulty : ℤ) :
    ∀ (l : List DetectedBlock) (acc : List ValidatedBlock),
      (buildChainLoop difficulty acc l).map (fun v => v.id)
        = acc.map (fun v => v.id) ++ l.map (fun b => b.id) := by
  intro l
  induction l with
  | nil => intro acc; simp [buildChainLoop]
  | cons block rest ih =>
    intro acc
    rw [buildChainLoop, ih]
    simp [validateBlock_id]

theorem assignColumns_length (blocks : List DetectedBlock) :
    (assignColumns blocks).length = blocks.length := by
  unfold assignColumns
  rcases blocks with _ | ⟨b0, rest⟩ <;> simp
  split <;> simp

theorem assignColumns_ids (blocks : List DetectedBlock) :
    (assignColumns blocks).map (fun b => b.id) = blocks.map (fun b => b.id) := by
  unfold assignColumns
  rcases blocks with _ | ⟨b0, rest⟩ <;> simp
  split <;> simp

theorem validateBlock_genesis_eq (difficulty : ℤ) (acc : List ValidatedBlock)
    (b : DetectedBlock) (h : isGenesisBlock b = true) :
    validateBlock difficulty acc b =
      { toDetectedBlock := b
        isGenesis := true
        predecessorId := none
        isValid := decide (b.column = 0)
        errors :=
          (if b.column ≠ 0 then [BuildErr.genesisWrongColumn] else []) ++
          (if b.total ≠ GENESIS_VALUES.sum then
            [BuildErr.genesisTotalMismatch b.total GENESIS_VALUES.sum] else [])
        requiredColors := getRequiredColors b.dice } := by
  unfold validateBlock
  simp [h]

/-- The list of predecessor candidates inspected by `validateBlock` for a
non-genesis block. -/
def predCandidates (acc : List ValidatedBlock) (b : DetectedBlock) : List ValidatedBlock :=
  acc.filter (fun vb => decide (vb.column = b.column - 1) && vb.isValid)

/-- The first matching predecessor candidate, if any. -/
def foundPred (acc : List ValidatedBlock) (b : DetectedBlock) : Option ValidatedBlock :=
  (predCandidates acc b).find? (fun candidate => canBePredecessor candidate.toDetectedBlock b)

theorem validateBlock_nongenesis_eq (difficulty : ℤ) (acc : List ValidatedBlock)
    (b : DetectedBlock) (h : isGenesisBlock b = false) :
    validateBlock difficulty acc b =
      { toDetectedBlock := b
        isGenesis := false
        predecessorId := (foundPred acc b).map (fun candidate => candidate.id)
        isValid := decide (b.total ≤ difficulty) &&
          !(predCandidates acc b).isEmpty && (foundPred acc b).isSome
        errors :=
          (if difficulty < b.total then
            [BuildErr.exceedsDifficulty b.total difficulty] else []) ++
          (if (predCandidates acc b).isEmpty then
            [BuildErr.noPredecessorCandidates (b.column - 1)]
          else if (foundPred acc b).isSome then []
          else
            BuildErr.noMatchingPredecessor ::
            (match predCandidates acc b with
             | [pred] =>
               [BuildErr.requiredVsActual (getRequiredColors pred.dice)
                 (b.dice.map (fun d => d.color))]
             | _ => []))
        requiredColors := getRequiredColors b.dice } := by
  unfold validateBlock
  rw [if_neg (by simp [h])]
  rfl

/-- C4: a genesis block validated by `buildChain` is valid exactly when its
column is 0 (a nonzero column records an error), and the pip-total check
only ever records the mismatch diagnostic — it never affects validity. -/
theorem buildChain_genesis_validation (blocks : List DetectedBlock) (difficulty : ℤ)
    (v : ValidatedBlock) (hv : v ∈ buildChain blocks difficulty)
    (hg : v.isGenesis = true) :
    (v.isValid = true ↔ v.column = 0) ∧
    (v.column ≠ 0 → BuildErr.genesisWrongColumn ∈ v.errors) ∧
    (BuildErr.genesisTotalMismatch v.total 24 ∈ v.errors ↔ v.total ≠ 24) := by
  obtain ⟨a, b, rfl⟩ := buildChain_mem hv
  rw [validateBlock_isGenesis] at hg
  rw [validateBlock_column, validateBlock_total, validateBlock_genesis_eq difficulty a b hg]
  rw [GENESIS_VALUES_sum]
  refine ⟨by simp, ?_, ?_⟩
  · intro hc
    simp [hc]
  · by_cases hc : b.column = 0 <;> by_cases ht : b.total = 24 <;> simp [hc, ht]

/-- C5: for a non-genesis block validated by `buildChain`, the
difficulty-threshold diagnostic is recorded exactly when `total > difficulty`
(so `total = difficulty` passes the check), and recording it forces
`isValid = false`. -/
theorem buildChain_difficulty_threshold (blocks : List DetectedBlock) (difficulty : ℤ)
    (v : ValidatedBlock) (hv : v ∈ buildChain blocks difficulty)
    (hg : v.isGenesis = false) :
    (BuildErr.exceedsDifficulty v.total difficulty ∈ v.errors ↔ difficulty < v.total) ∧
    (difficulty < v.total → v.isValid = false) := by
  obtain ⟨a, b, rfl⟩ := buildChain_mem hv
  rw [validateBlock_isGenesis] at hg
  rw [validateBlock_total, validateBlock_nongenesis_eq difficulty a b hg]
  simp only []
  constructor
  · have hrest : BuildErr.exceedsDifficulty b.total difficulty ∉
        (if (predCandidates a b).isEmpty then
          [BuildErr.noPredecessorCandidates (b.column - 1)]
        else if (foundPred a b).isSome then []
        else
          BuildErr.noMatchingPredecessor ::
          (match predCandidates a b with
           | [pred] =>
             [BuildErr.requiredVsActual (getRequiredColors pred.dice)
               (b.dice.map (fun d => d.color))]
           | _ => [])) := by
      rcases hC : predCandidates a b with _ | ⟨c1, _ | ⟨c2, cs⟩⟩ <;>
        simp only [hC] <;> split <;> simp_all
    by_cases hd : difficulty < b.total <;> simp_all
  · intro hd
    have : decide (b.total ≤ difficulty) = false := by simp; omega
    simp [this]

theorem findLongestFromNode_head (children : String → List String) (fuel : ℕ)
    (n : String) : (findLongestFromNode children fuel n).head? = some n := by
  cases fuel with
  | zero => rfl
  | succ f =>
    simp only [findLongestFromNode]
    split <;> rfl

theorem pickLongest_eq_nil_or_mem (cands : List (List String)) :
    pickLongest cands = [] ∨ pickLongest cands ∈ cands := by
  have key : ∀ (cands : List (List String)) (best : List String),
      cands.foldl (fun best c => if best.length < c.length then c else best) best = best ∨
      cands.foldl (fun best c => if best.length < c.length then c else best) best ∈ cands := by
    intro cands
    induction cands with
    | nil => intro best; exact Or.inl rfl
    | cons c t ih =>
      intro best
      rcases ih (if best.length < c.length then c else best) with h | h
      · rw [List.foldl_cons, h]
        split
        · exact Or.inr (List.mem_cons_self _ _)
        · exact Or.inl rfl
      · exact Or.inr (List.mem_cons_of_mem _ h)
  exact key cands []

/-- Every id in the tail of a DFS result was pushed from some children list. -/
theorem mem_tail_findLongestFromNode (children : String → List String) :
    ∀ (fuel : ℕ) (n x : String), x ∈ (findLongestFromNode children fuel n).tail →
      ∃ m, x ∈ children m := by
  intro fuel
  induction fuel with
  | zero => intro n x hx; simp [findLongestFromNode] at hx
  | succ f ih =>
    intro n x hx
    simp only [findLongestFromNode] at hx
    by_cases hemp : (children n).isEmpty
    · simp [hemp] at hx
    · rw [if_neg hemp] at hx
      simp only [List.tail_cons] at hx
      rcases pickLongest_eq_nil_or_mem ((children n).map (findLongestFromNode children f))
        with h | h
      · rw [h] at hx
        simp at hx
      · rcases List.mem_map.mp h with ⟨c, hc, hpick⟩
        rw [← hpick] at hx
        have hhead := findLongestFromNode_head children f c
        rcases hfn : findLongestFromNode children f c with _ | ⟨y, t⟩
        · rw [hfn] at hx
          simp at hx
        · rw [hfn] at hx hhead
          simp only [List.head?_cons, Option.some_inj] at hhead
          rcases List.mem_cons.mp hx with hxy | hxt
        -- x is the head, i.e. the child id c itself, pushed from children n
          · exact ⟨n, by rw [hxy, hhead]; exact hc⟩
          · exact ih c x (by rw [hfn]; exact hxt)

theorem childrenOf_mem {blocks : List ValidatedBlock} {p x : String}
    (hx : x ∈ childrenOf blocks p) : ∃ b ∈ blocks, b.id = x ∧ b.isValid = true := by
  unfold childrenOf at hx
  rcases List.mem_map.mp hx with ⟨b, hb, rfl⟩
  rcases List.mem_filter.mp hb with ⟨hbmem, hcond⟩
  refine ⟨b, hbmem, rfl, ?_⟩
  simp only [Bool.and_eq_true] at hcond
  exact hcond.2

/-- C2 (amended): `findLongestChain` returns `[]` when no block has the
`isGenesis` flag; a non-empty result starts with the id of the first block
flagged as genesis (whatever its own `isValid` flag); and when that genesis
has no valid children the result is exactly the singleton of its id. -/
theorem findLongestChain_genesis_behavior (blocks : List ValidatedBlock) :
    ((∀ b ∈ blocks, b.isGenesis = false) → findLongestChain blocks = []) ∧
    (findLongestChain blocks ≠ [] →
      ∃ g, blocks.find? (fun b => b.isGenesis) = some g ∧
        (findLongestChain blocks).head? = some g.id) ∧
    (∀ g, blocks.find? (fun b => b.isGenesis) = some g →
      (∀ b ∈ blocks, ¬(b.isValid = true ∧ b.predecessorId = some g.id)) →
      findLongestChain blocks = [g.id]) := by
  refine ⟨?_, ?_, ?_⟩
  · intro hnog
    unfold findLongestChain
    have hnone : blocks.find? (fun b => b.isGenesis) = none := by
      rw [List.find?_eq_none]
      intro b hb
      simp [hnog b hb]
    rw [hnone]
    split <;> rfl
  · intro hne
    unfold findLongestChain at hne ⊢
    by_cases hemp : blocks.isEmpty
    · simp [hemp] at hne
    · rw [if_neg hemp] at hne ⊢
      rcases hfind : blocks.find? (fun b => b.isGenesis) with _ | g
      · rw [hfind] at hne
        simp at hne
      · rw [hfind]
        exact ⟨g, rfl, findLongestFromNode_head _ _ _⟩
  · intro g hfind hnochild
    have hgmem : g ∈ blocks := List.mem_of_find?_eq_some hfind
    have hchildren : childrenOf blocks g.id = [] := by
      unfold childrenOf
      rw [List.map_eq_nil_iff, List.filter_eq_nil_iff]
      intro b hb
      specialize hnochild b hb
      by_cases h1 : b.predecessorId = some g.id
      · have h2 : b.isValid = false := by
          cases hbv : b.isValid with
          | false => rfl
          | true => exact absurd ⟨hbv, h1⟩ hnochild
        simp [h1, h2]
      · simp [h1]
    unfold findLongestChain
    rcases hbl : blocks with _ | ⟨b0, rest⟩
    · rw [hbl] at hgmem
      simp at hgmem
    · rw [← hbl]
      have hemp : blocks.isEmpty = false := by
        rw [hbl]
        rfl
      rw [if_neg (by simp [hemp]), hfind]
      have hlen : blocks.length = rest.length + 1 := by
        rw [hbl]
        rfl
      rw [hlen]
      unfold findLongestFromNode
      rw [hchildren]
      rfl

/-- C7 helper, stated for an arbitrary validated-block list. -/
theorem findLongestChain_refs (V : List ValidatedBlock) :
    (∀ x ∈ (findLongestChain V).tail, ∃ b ∈ V, b.id = x ∧ b.isValid = true) ∧
    (∀ x, (findLongestChain V).head? = some x →
      ∃ g ∈ V, g.isGenesis = true ∧ g.id = x) := by
  constructor
  · intro x hx
    unfold findLongestChain at hx
    by_cases hemp : V.isEmpty
    · simp [hemp] at hx
    · rw [if_neg hemp] at hx
      rcases hfind : V.find? (fun b => b.isGenesis) with _ | g
      · rw [hfind] at hx
        simp at hx
      · rw [hfind] at hx
        rcases mem_tail_findLongestFromNode (childrenOf V) V.length g.id x hx with ⟨m, hm⟩
        exact childrenOf_mem hm
  · intro x hx
    unfold findLongestChain at hx
    by_cases hemp : V.isEmpty
    · simp [hemp] at hx
    · rw [if_neg hemp] at hx
      rcases hfind : V.find? (fun b => b.isGenesis) with _ | g
      · rw [hfind] at hx
        simp at hx
      · rw [hfind] at hx
        rw [findLongestFromNode_head] at hx
        refine ⟨g, List.mem_of_find?_eq_some hfind, ?_, Option.some_inj.mp hx⟩
        exact List.find?_some hfind

/-- C7: every id in the longest chain of a `validateBlocks` result refers to
a block of the result marked valid, except possibly the first id, which is
the id of the (first) genesis block regardless of that block's validity. -/
theorem validateBlocks_longestChain_refs (blocks : List DetectedBlock) (difficulty : ℤ) :
    (∀ x ∈ (validateBlocks blocks difficulty).longestChain.tail,
      ∃ b ∈ (validateBlocks blocks difficulty).blocks, b.id = x ∧ b.isValid = true) ∧
    (∀ x, (validateBlocks blocks difficulty).longestChain.head? = some x →
      ∃ g ∈ (validateBlocks blocks difficulty).blocks, g.isGenesis = true ∧ g.id = x) := by
  simp only [validateBlocks]
  exact findLongestChain_refs (buildChain blocks difficulty)

/-- Any predecessor id recorded by `validateBlock` names an already-validated
block of the accumulator sitting in the column just below the block's. -/
theorem validateBlock_predecessor (difficulty : ℤ) (acc : List ValidatedBlock)
    (b : DetectedBlock) (p : String)
    (hp : (validateBlock difficulty acc b).predecessorId = some p) :
    ∃ u ∈ acc, u.id = p ∧ u.column = b.column - 1 ∧ u.isValid = true := by
  by_cases hg : isGenesisBlock b = true
  · rw [validateBlock_genesis_eq difficulty acc b hg] at hp
    simp at hp
  · rw [validateBlock_nongenesis_eq difficulty acc b (by simpa using hg)] at hp
    rcases hfound : foundPred acc b with _ | candidate
    · rw [hfound] at hp
      simp at hp
    · rw [hfound] at hp
      simp only [Option.map_some', Option.some_inj] at hp
      unfold foundPred at hfound
      have hcmem := List.mem_of_find?_eq_some hfound
      unfold predCandidates at hcmem
      rcases List.mem_filter.mp hcmem with ⟨hmem, hcond⟩
      simp only [Bool.and_eq_true, decide_eq_true_eq] at hcond
      exact ⟨candidate, hmem, hp, hcond.1, hcond.2⟩

/-- The predecessor-link invariant maintained by the validation loop. -/
def PredInv (V : List ValidatedBlock) : Prop :=
  ∀ v ∈ V, ∀ p, v.predecessorId = some p →
    ∃ u ∈ V, u.id = p ∧ u.column = v.column - 1 ∧ u.isValid = true

theorem buildChainLoop_predInv (difficulty : ℤ) :
    ∀ (l : List DetectedBlock) (acc : List ValidatedBlock),
      PredInv acc → PredInv (buildChainLoop difficulty acc l) := by
  intro l
  induction l with
  | nil => intro acc h; exact h
  | cons b rest ih =>
    intro acc hacc
    refine ih _ ?_
    intro v hv p hp
    rcases List.mem_append.mp hv with hvold | hvnew
    · rcases hacc v hvold p hp with ⟨u, hu, hprops⟩
      exact ⟨u, List.mem_append_left _ hu, hprops⟩
    · have hveq : v = validateBlock difficulty acc b := by simpa using hvnew
      rw [hveq] at hp
      rcases validateBlock_predecessor difficulty acc b p hp with ⟨u, hu, h1, h2, h3⟩
      refine ⟨u, List.mem_append_left _ hu, h1, ?_, h3⟩
      rw [hveq, validateBlock_column]
      exact h2

theorem buildChain_predInv (blocks : List DetectedBlock) (difficulty : ℤ) :
    PredInv (buildChain blocks difficulty) := by
  unfold buildChain
  rcases blocks with _ | ⟨b0, rest⟩
  · intro v hv; simp at hv
  · exact buildChainLoop_predInv difficulty _ [] (by intro v hv; simp at hv)

/-- Rank of a node id in the validated-block graph: one plus the number of
blocks in a strictly higher column than the block carrying that id (zero for
ids that name no block).  Child edges strictly decrease this rank. -/
def rankOf (V : List ValidatedBlock) (n : String) : ℕ :=
  match V.find? (fun b => decide (b.id = n)) with
  | none => 0
  | some b => (V.filter (fun u => decide (b.column < u.column))).length + 1

theorem rankOf_le_length (V : List ValidatedBlock) (n : String) :
    rankOf V n ≤ V.length := by
  unfold rankOf
  rcases hf : V.find? (fun b => decide (b.id = n)) with _ | b
  · simp only [hf]
    exact Nat.zero_le _
  · simp only [hf]
    have hb : b ∈ V := List.mem_of_find?_eq_some hf
    have : (V.filter (fun u => decide (b.column < u.column))).length < V.length := by
      rw [List.length_filter_lt_length_iff_exists]
      exact ⟨b, hb, by simp⟩
    omega

theorem rankOf_of_mem {V : List ValidatedBlock} (hnodup : (V.map (fun v => v.id)).Nodup)
    {b : ValidatedBlock} (hb : b ∈ V) :
    rankOf V b.id = (V.filter (fun u => decide (b.column < u.column))).length + 1 := by
  unfold rankOf
  rcases hf : V.find? (fun u => decide (u.id = b.id)) with _ | w
  · exfalso
    have := List.find?_eq_none.mp hf b hb
    simp at this
  · simp only [hf]
    have hw : w ∈ V := List.mem_of_find?_eq_some hf
    have hwid : w.id = b.id := by simpa using List.find?_some hf
    have hwb : w = b := List.inj_on_of_nodup_map hnodup hw hb hwid
    rw [hwb]

/-- A pointwise-weaker predicate with a strict witness counts strictly more. -/
theorem countP_lt_countP {α : Type} (l : List α) (p q : α → Bool)
    (himp : ∀ x ∈ l, p x = true → q x = true) (x : α) (hx : x ∈ l)
    (hqx : q x = true) (hpx : p x = false) : l.countP p < l.countP q := by
  induction l with
  | nil => simp at hx
  | cons a t ih =>
    rw [List.countP_cons, List.countP_cons]
    have hle : (if p a then 1 else 0) ≤ (if q a then 1 else 0) := by
      by_cases hpa : p a = true
      · simp [hpa, himp a (List.mem_cons_self _ _) hpa]
      · simp [hpa]
    rcases List.mem_cons.mp hx with rfl | hxt
    · have h1 : t.countP p ≤ t.countP q :=
        List.countP_mono_left (fun y hy hpy => himp y (List.mem_cons_of_mem _ hy) hpy)
      simp only [hpx, hqx]
      simp
      omega
    · have h1 := ih (fun y hy hpy => himp y (List.mem_cons_of_mem _ hy) hpy) hxt
      omega

/-- With pairwise-distinct ids, each child edge of the adjacency structure
strictly decreases `rankOf` (children live one column higher). -/
theorem childrenOf_rank_lt {V : List ValidatedBlock}
    (hnodup : (V.map (fun v => v.id)).Nodup) (hinv : PredInv V) :
    ∀ n c, c ∈ childrenOf V n → rankOf V c < rankOf V n := by
  intro n c hc
  unfold childrenOf at hc
  rcases List.mem_map.mp hc with ⟨bc, hbcf, rfl⟩
  rcases List.mem_filter.mp hbcf with ⟨hbcmem, hcond⟩
  simp only [Bool.and_eq_true, decide_eq_true_eq] at hcond
  obtain ⟨⟨hpred, _⟩, hvalid⟩ := hcond
  rcases hinv bc hbcmem n hpred with ⟨u, humem, huid, hucol, _⟩
  rw [rankOf_of_mem hnodup hbcmem]
  rw [← huid, rankOf_of_mem hnodup humem]
  have hlt : (V.filter (fun v => decide (bc.column < v.column))).length
      < (V.filter (fun v => decide (u.column < v.column))).length := by
    rw [← List.countP_eq_length_filter, ← List.countP_eq_length_filter]
    refine countP_lt_countP V _ _ ?_ bc hbcmem ?_ ?_
    · intro x _ hx
      simp only [decide_eq_true_eq] at hx ⊢
      omega
    · simp only [decide_eq_true_eq]
      omega
    · simp only [decide_eq_false_iff_not]
      omega
  omega

theorem findLongestFromNode_of_no_children (children : String → List String)
    (n : String) (hcn : children n = []) (fuel : ℕ) :
    findLongestFromNode children fuel n = [n] := by
  cases fuel with
  | zero => rfl
  | succ f => simp [findLongestFromNode, hcn]

/-- As long as the fuel dominates the node's rank, the fuelled DFS does not
depend on the fuel — i.e. the source's unbounded recursion terminates and is
computed exactly by the fuelled model. -/
theorem findLongestFromNode_fuel_stable (children : String → List String)
    (r : String → ℕ) (hr : ∀ n c, c ∈ children n → r c < r n) :
    ∀ (k : ℕ) (n : String), r n ≤ k → ∀ fuel₁ fuel₂, r n ≤ fuel₁ → r n ≤ fuel₂ →
      findLongestFromNode children fuel₁ n = findLongestFromNode children fuel₂ n := by
  intro k
  induction k with
  | zero =>
    intro n hn fuel₁ fuel₂ _ _
    have hcn : children n = [] := by
      rcases h : children n with _ | ⟨c, t⟩
      · rfl
      · have := hr n c (h ▸ List.mem_cons_self c t)
        omega
    rw [findLongestFromNode_of_no_children children n hcn,
      findLongestFromNode_of_no_children children n hcn]
  | succ k ih =>
    intro n hn fuel₁ fuel₂ h1 h2
    rcases hcn : children n with _ | ⟨c0, t⟩
    · rw [findLongestFromNode_of_no_children children n hcn,
        findLongestFromNode_of_no_children children n hcn]
    · have hrn : 1 ≤ r n := by
        have := hr n c0 (hcn ▸ List.mem_cons_self c0 t)
        omega
      rcases fuel₁ with _ | f₁
      · omega
      rcases fuel₂ with _ | f₂
      · omega
      simp only [findLongestFromNode]
      have hmap : (children n).map (findLongestFromNode children f₁)
          = (children n).map (findLongestFromNode children f₂) := by
        apply List.map_congr_left
        intro c hcmem
        have hrc : r c < r n := hr n c hcmem
        exact ih c (by omega) f₁ f₂ (by omega) (by omega)
      rw [hmap]

/-- C9: in every `buildChain` output, each recorded `predecessorId` names a
(valid) block in the column exactly one below the linking block; with
pairwise-distinct ids this makes the child graph acyclic, and the
depth-first search of `findLongestChain` is fuel-independent at the fuel the
model passes (`length` of the block list) — i.e. it terminates. -/
theorem buildChain_pred_column_dfs_terminates (blocks : List DetectedBlock)
    (difficulty : ℤ) :
    (∀ v ∈ buildChain blocks difficulty, ∀ p, v.predecessorId = some p →
      ∃ u ∈ buildChain blocks difficulty,
        u.id = p ∧ u.column = v.column - 1 ∧ u.isValid = true) ∧
    (((buildChain blocks difficulty).map (fun v => v.id)).Nodup →
      ∀ (n : String) (fuel : ℕ), (buildChain blocks difficulty).length ≤ fuel →
        findLongestFromNode (childrenOf (buildChain blocks difficulty)) fuel n
          = findLongestFromNode (childrenOf (buildChain blocks difficulty))
              (buildChain blocks difficulty).length n) := by
  refine ⟨buildChain_predInv blocks difficulty, ?_⟩
  intro hnodup n fuel hfuel
  have hr := childrenOf_rank_lt hnodup (buildChain_predInv blocks difficulty)
  have hrank := rankOf_le_length (buildChain blocks difficulty) n
  exact findLongestFromNode_fuel_stable _ _ hr
    (buildChain blocks difficulty).length n hrank fuel
    (buildChain blocks difficulty).length (by omega) (by omega)

theorem le_foldl_max (l : List ℚ) : ∀ a : ℚ, a ≤ l.foldl max a := by
  induction l with
  | nil => intro a; exact le_refl a
  | cons x t ih =>
    intro a
    exact le_trans (le_max_left a x) (ih (max a x))

theorem maxList_pos {l : List ℚ} (hne : l ≠ []) (hpos : ∀ x ∈ l, 0 < x) :
    0 < maxList l := by
  rcases l with _ | ⟨a, t⟩
  · exact absurd rfl hne
  · exact lt_of_lt_of_le (hpos a (List.mem_cons_self a t)) (le_foldl_max t a)

theorem avgBlockWidth_pos {blocks : List DetectedBlock} (hne : blocks ≠ [])
    (hdice : ∀ b ∈ blocks, b.dice ≠ [] ∧ ∀ d ∈ b.dice, 0 < d.bounds.width) :
    0 < avgBlockWidth blocks := by
  unfold avgBlockWidth
  apply div_pos
  · apply List.sum_pos
    · intro w hw
      rcases List.mem_map.mp hw with ⟨b, hb, rfl⟩
      unfold blockGridWidth
      have hbd := hdice b hb
      have hmax : 0 < maxList (b.dice.map (fun d => d.bounds.width)) := by
        apply maxList_pos
        · simp [hbd.1]
        · intro x hx
          rcases List.mem_map.mp hx with ⟨d, hd, rfl⟩
          exact hbd.2 d hd
      positivity
    · simp [hne]
  · have : 0 < blocks.length := List.length_pos.mpr hne
    exact_mod_cast this

theorem jsRound_nonneg {q : ℚ} (hq : 0 ≤ q) : 0 ≤ jsRound q := by
  unfold jsRound
  rw [Int.floor_nonneg]
  linarith

/-- The head of the x-sorted list is a lower bound for every block's x. -/
theorem sortedByX_head_le (b0 : DetectedBlock) {blocks : List DetectedBlock}
    {b : DetectedBlock} (hb : b ∈ blocks) :
    ((List.insertionSort posXLe blocks).headD b0).position.x ≤ b.position.x := by
  have hperm := List.perm_insertionSort posXLe blocks
  have hsorted := List.sorted_insertionSort posXLe blocks
  have hbmem : b ∈ List.insertionSort posXLe blocks := hperm.mem_iff.mpr hb
  rcases hs : List.insertionSort posXLe blocks with _ | ⟨h, t⟩
  · rw [hs] at hbmem
    simp at hbmem
  · rw [hs] at hbmem hsorted
    simp only [List.headD_cons]
    rcases List.mem_cons.mp hbmem with rfl | hbt
    · exact le_refl _
    · exact List.rel_of_sorted_cons hsorted b hbt

/-- C3 (amended): with nonempty dice of positive widths, `assignColumns`
never assigns a negative column, and the *first* block satisfying
`isGenesisBlock` (the one `findIndex` selects) is assigned column 0. -/
theorem assignColumns_nonneg_and_first_genesis (blocks : List DetectedBlock)
    (hdice : ∀ b ∈ blocks, b.dice ≠ [] ∧ ∀ d ∈ b.dice, 0 < d.bounds.width) :
    (∀ b ∈ assignColumns blocks, 0 ≤ b.column) ∧
    (∀ g, blocks.find? (fun b => isGenesisBlock b) = some g →
      ∃ b ∈ assignColumns blocks, b.id = g.id ∧ b.position = g.position ∧ b.column = 0) := by
  rcases hbl : blocks with _ | ⟨b0, rest⟩
  · constructor
    · intro b hb
      simp [assignColumns] at hb
    · intro g hg
      simp at hg
  · rw [← hbl]
    have hne : blocks ≠ [] := by rw [hbl]; simp
    have hcw : 0 < avgBlockWidth blocks * (3 / 2) := by
      have := avgBlockWidth_pos hne hdice
      linarith
    have hunfold : assignColumns blocks =
        (match blocks.find? (fun b => isGenesisBlock b) with
         | none =>
           blocks.map (fun block =>
             { block with column := jsRound ((block.position.x -
                 ((List.insertionSort posXLe blocks).headD b0).position.x) /
                   (avgBlockWidth blocks * (3 / 2))) })
         | some genesisBlock =>
           blocks.map (fun block =>
             { block with column := max 0 (jsRound ((block.position.x -
                 genesisBlock.position.x) *
                 (if (blocks.filter
                       (fun b => decide (b.position.x < genesisBlock.position.x))).length ≤
                     (blocks.filter
                       (fun b => decide (genesisBlock.position.x < b.position.x))).length
                  then (1 : ℚ) else -1) /
                 (avgBlockWidth blocks * (3 / 2)))) })) := by
      conv_lhs => rw [hbl]
      rw [assignColumns]
      rw [← hbl]
    constructor
    · intro b hb
      rw [hunfold] at hb
      rcases hfind : blocks.find? (fun b => isGenesisBlock b) with _ | gb
      · rw [hfind] at hb
        simp only [List.mem_map] at hb
        rcases hb with ⟨a, ha, rfl⟩
        simp only []
        apply jsRound_nonneg
        apply div_nonneg _ (le_of_lt hcw)
        have := sortedByX_head_le b0 ha
        linarith
      · rw [hfind] at hb
        simp only [List.mem_map] at hb
        rcases hb with ⟨a, ha, rfl⟩
        exact le_max_left 0 _
    · intro g hg
      rw [hunfold, hg]
      refine ⟨{ g with column := max 0 (jsRound ((g.position.x - g.position.x) *
          (if (blocks.filter
                (fun b => decide (b.position.x < g.position.x))).length ≤
              (blocks.filter
                (fun b => decide (g.position.x < b.position.x))).length
           then (1 : ℚ) else -1) /
          (avgBlockWidth blocks * (3 / 2)))) }, ?_, rfl, rfl, ?_⟩
      · exact List.mem_map.mpr ⟨g, List.mem_of_find?_eq_some hg, rfl⟩
      · simp only []
        have hz : (g.position.x - g.position.x) *
            (if (blocks.filter
                  (fun b => decide (b.position.x < g.position.x))).length ≤
                (blocks.filter
                  (fun b => decide (g.position.x < b.position.x))).length
             then (1 : ℚ) else -1) /
            (avgBlockWidth blocks * (3 / 2)) = 0 := by
          rw [sub_self, zero_mul, zero_div]
        rw [hz]
        have : jsRound 0 = 0 := by
          unfold jsRound
          norm_num
        rw [this]
        rfl

/-- A die with a 2×2 bounding box at the origin (the die positions inside a
block are irrelevant to column assignment and validation). -/
def mkDie (c : DiceColor) (p : ℕ) : DetectedDie :=
  { color := c, pips := p, confidence := 1, bounds := ⟨0, 0, 2, 2⟩ }

/-- Nine dice showing the genesis color pattern, all with `p` pips. -/
def genesisColorsDice (p : ℕ) : List DetectedDie :=
  [mkDie .red p, mkDie .red p, mkDie .orange p, mkDie .orange p,
   mkDie .yellow p, mkDie .yellow p, mkDie .green p, mkDie .green p, mkDie .green p]

/-- A genesis-pattern block centered at x = 0. -/
def exColG1 : DetectedBlock :=
  { id := "g1", dice := genesisColorsDice 1, total := 9, trayColor := "#888888",
    position := ⟨0, 0⟩, column := 0 }

/-- A second genesis-pattern block centered at x = 18. -/
def exColG2 : DetectedBlock :=
  { id := "g2", dice := genesisColorsDice 1, total := 9, trayColor := "#888888",
    position := ⟨18, 0⟩, column := 0 }

/-- C3 counterexample: with two blocks both satisfying `isGenesisBlock`
(at x = 0 and x = 18, all die widths 2, so `columnWidth = 9`), the second
genesis-pattern block is assigned column 2, not column 0: only the *first*
genesis block is anchored at 0. -/
theorem assignColumns_second_genesis_not_col0 :
    isGenesisBlock exColG2 = true ∧
    (assignColumns [exColG1, exColG2]).map (fun b => b.column) = [0, 2] := by
  refine ⟨by decide, ?_⟩
  have havg : avgBlockWidth [exColG1, exColG2] = 6 := by
    norm_num [avgBlockWidth, blockGridWidth, maxList, exColG1, exColG2,
      genesisColorsDice, mkDie]
  have hg1 : isGenesisBlock exColG1 = true := by decide
  rw [assignColumns]
  rw [List.find?_cons_of_pos _ hg1]
  simp only [havg]
  norm_num [exColG1, exColG2, jsRound]

/-- A genesis block (colors = genesis pattern) whose dice all show 5 pips,
so its pip total is 45 ≠ 24 and its required colors are nine blues. -/
def exGen : DetectedBlock :=
  { id := "g", dice := genesisColorsDice 5, total := 45, trayColor := "#888888",
    position := ⟨0, 0⟩, column := 0 }

/-- A successor block: nine blue dice (matching `exGen`'s required colors),
each showing 1 pip, centered one column width to the right of `exGen`. -/
def exB2 : DetectedBlock :=
  { id := "b2", dice := List.replicate 9 (mkDie .blue 1), total := 9,
    trayColor := "#888888", position := ⟨9, 0⟩, column := 0 }

/-- Expected validation of `exGen`: valid genesis in column 0 with only the
advisory total diagnostic. -/
def exGenV : ValidatedBlock :=
  { toDetectedBlock := exGen
    isGenesis := true
    predecessorId := none
    isValid := true
    errors := [.genesisTotalMismatch 45 24]
    requiredColors := List.replicate 9 (some .blue) }

/-- Expected validation of `exB2`: valid successor of `exGen` in column 1. -/
def exB2V : ValidatedBlock :=
  { toDetectedBlock := { exB2 with column := 1 }
    isGenesis := false
    predecessorId := some "g"
    isValid := true
    errors := []
    requiredColors := List.replicate 9 (some .red) }

theorem exChain_assign : assignColumns [exGen, exB2] = [exGen, { exB2 with column := 1 }] := by
  have havg : avgBlockWidth [exGen, exB2] = 6 := by
    norm_num [avgBlockWidth, blockGridWidth, maxList, exGen, exB2,
      genesisColorsDice, mkDie, List.replicate]
  rw [assignColumns]
  rw [List.find?_cons_of_pos _ (by decide : isGenesisBlock exGen = true)]
  simp only [havg]
  norm_num [exGen, exB2, jsRound]

theorem exChain_eval : buildChain [exGen, exB2] 25 = [exGenV, exB2V] := by
  rw [show buildChain [exGen, exB2] 25
      = buildChainLoop 25 [] (List.insertionSort columnLe (assignColumns [exGen, exB2]))
    from rfl]
  rw [exChain_assign]
  decide

theorem dist2_comm (a b : Bounds) : dist2 a b = dist2 b a := by
  unfold dist2
  ring

theorem linkedWithin_symm {thr2 : ℚ} {dice : List DetectedDie} {a b : DetectedDie}
    (h : LinkedWithin thr2 dice a b) : LinkedWithin thr2 dice b a := by
  refine Relation.ReflTransGen.symmetric ?_ h
  intro x y hxy
  exact ⟨hxy.2.1, hxy.1, dist2_comm x.bounds y.bounds ▸ hxy.2.2⟩

theorem absorb_fst_subset (thr2 : ℚ) :
    ∀ (l cluster : List DetectedDie) (x : DetectedDie),
      x ∈ (absorb thr2 cluster l).1 → x ∈ cluster ∨ x ∈ l := by
  intro l
  induction l with
  | nil => intro cluster x hx; exact Or.inl hx
  | cons d rest ih =>
    intro cluster x hx
    by_cases hnear : isNearCluster thr2 cluster d = true
    · rw [absorb, if_pos hnear] at hx
      rcases ih (cluster ++ [d]) x hx with h | h
      · rcases List.mem_append.mp h with h | h
        · exact Or.inl h
        · exact Or.inr (List.mem_cons.mpr (Or.inl (by simpa using h)))
      · exact Or.inr (List.mem_cons_of_mem _ h)
    · rw [absorb, if_neg hnear] at hx
      rcases ih cluster x hx with h | h
      · exact Or.inl h
      · exact Or.inr (List.mem_cons_of_mem _ h)

theorem absorb_snd_subset (thr2 : ℚ) :
    ∀ (l cluster : List DetectedDie) (x : DetectedDie),
      x ∈ (absorb thr2 cluster l).2 → x ∈ l := by
  intro l
  induction l with
  | nil => intro cluster x hx; simp [absorb] at hx
  | cons d rest ih =>
    intro cluster x hx
    by_cases hnear : isNearCluster thr2 cluster d = true
    · rw [absorb, if_pos hnear] at hx
      exact List.mem_cons_of_mem _ (ih (cluster ++ [d]) x hx)
    · rw [absorb, if_neg hnear] at hx
      rcases List.mem_cons.mp hx with rfl | h
      · exact List.mem_cons_self _ _
      · exact List.mem_cons_of_mem _ (ih cluster x h)

theorem absorb_linked (thr2 : ℚ) (dice : List DetectedDie) :
    ∀ (l cluster : List DetectedDie),
      (∀ x ∈ cluster, x ∈ dice) → (∀ x ∈ l, x ∈ dice) →
      (∀ a ∈ cluster, ∀ b ∈ cluster, LinkedWithin thr2 dice a b) →
      ∀ a ∈ (absorb thr2 cluster l).1, ∀ b ∈ (absorb thr2 cluster l).1,
        LinkedWithin thr2 dice a b := by
  intro l
  induction l with
  | nil => intro cluster _ _ hpair; exact hpair
  | cons d rest ih =>
    intro cluster hcsub hlsub hpair
    have hdmem : d ∈ dice := hlsub d (List.mem_cons_self _ _)
    by_cases hnear : isNearCluster thr2 cluster d = true
    · rw [absorb, if_pos hnear]
      refine ih (cluster ++ [d]) ?_ (fun x hx => hlsub x (List.mem_cons_of_mem _ hx)) ?_
      · intro x hx
        rcases List.mem_append.mp hx with h | h
        · exact hcsub x h
        · simpa using (by simpa using h : x = d) ▸ hdmem
      · -- the absorbed die is adjacent to some cluster member, so the grown
        -- cluster stays pairwise linked
        have hedge : ∃ y ∈ cluster, dist2 d.bounds y.bounds < thr2 := by
          unfold isNearCluster at hnear
          rcases List.any_eq_true.mp hnear with ⟨y, hy, hdy⟩
          exact ⟨y, hy, by simpa using hdy⟩
        rcases hedge with ⟨y, hy, hdy⟩
        have hlink_d : ∀ b ∈ cluster, LinkedWithin thr2 dice d b := by
          intro b hb
          have h1 : LinkedWithin thr2 dice d y :=
            Relation.ReflTransGen.single ⟨hdmem, hcsub y hy, hdy⟩
          exact h1.trans (hpair y hy b hb)
        intro a ha b hb
        rcases List.mem_append.mp ha with ha' | ha'
        · rcases List.mem_append.mp hb with hb' | hb'
          · exact hpair a ha' b hb'
          · have : b = d := by simpa using hb'
            exact this ▸ linkedWithin_symm (hlink_d a ha')
        · have haeq : a = d := by simpa using ha'
          rcases List.mem_append.mp hb with hb' | hb'
          · exact haeq ▸ hlink_d b hb'
          · have hbeq : b = d := by simpa using hb'
            exact haeq ▸ hbeq ▸ Relation.ReflTransGen.refl
    · rw [absorb, if_neg hnear]
      exact ih cluster hcsub (fun x hx => hlsub x (List.mem_cons_of_mem _ hx)) hpair

theorem clusterLoopF_linked (thr2 : ℚ) (dice : List DetectedDie) :
    ∀ (fuel : ℕ) (l : List DetectedDie), (∀ x ∈ l, x ∈ dice) →
      ∀ c ∈ clusterLoopF thr2 fuel l, ∀ a ∈ c, ∀ b ∈ c, LinkedWithin thr2 dice a b := by
  intro fuel
  induction fuel with
  | zero => intro l _ c hc; simp [clusterLoopF] at hc
  | succ f ih =>
    intro l hlsub c hc
    rcases l with _ | ⟨d, rest⟩
    · simp [clusterLoopF] at hc
    · rw [clusterLoopF] at hc
      rcases List.mem_cons.mp hc with rfl | hc'
      · refine absorb_linked thr2 dice rest [d] ?_
          (fun x hx => hlsub x (List.mem_cons_of_mem _ hx)) ?_
        · intro x hx
          have : x = d := by simpa using hx
          exact this ▸ hlsub d (List.mem_cons_self _ _)
        · intro a ha b hb
          have ha' : a = d := by simpa using ha
          have hb' : b = d := by simpa using hb
          exact ha' ▸ hb' ▸ Relation.ReflTransGen.refl
      · refine ih (absorb thr2 [d] rest).2 ?_ c hc'
        intro x hx
        exact hlsub x (List.mem_cons_of_mem _ (absorb_snd_subset thr2 rest [d] x hx))

/-- C1 (amended): each cluster formed by the grouper's greedy single pass
lies inside one connected component of the corner-distance threshold graph
(any two members are linked); the pass does not, however, compute the
components themselves. -/
theorem groupDice_cluster_refines_components (dice : List DetectedDie)
    (c : List DetectedDie) (hc : c ∈ clustersOf dice) (a : DetectedDie) (ha : a ∈ c)
    (b : DetectedDie) (hb : b ∈ c) :
    LinkedWithin (clusterThreshold2 dice) dice a b := by
  unfold clustersOf at hc
  refine clusterLoopF_linked (clusterThreshold2 dice) dice _
    (List.insertionSort dieXLe dice) ?_ c hc a ha b hb
  intro x hx
  exact (List.perm_insertionSort dieXLe dice).subset hx

/-- A red one-pip die with a 2×2 bounding box at corner (x, y). -/
def cDie (x y : ℚ) : DetectedDie :=
  { color := .red, pips := 1, confidence := 1, bounds := ⟨x, y, 2, 2⟩ }

/-- Eight equal-size dice, already sorted by x.  `avgDieSize = 2`, so
`clusterThreshold = 5` (squared: 25).  The die at (1, 7) is within the
threshold of the die at (2, 3) — distance √17 — but farther than 5 from
(0, 0) — distance √50 — so it is skipped by the forward pass before (2, 3)
joins the cluster, and is never reconsidered. -/
def exC1Dice : List DetectedDie :=
  [cDie 0 0, cDie 1 7, cDie 2 3, cDie 5 0, cDie 9 0, cDie 13 0,
   cDie 17 0, cDie 21 0]

/-- The single cluster of size 7 the code forms on `exC1Dice`. -/
def exC1Cluster : List DetectedDie :=
  [cDie 0 0, cDie 2 3, cDie 5 0, cDie 9 0, cDie 13 0, cDie 17 0, cDie 21 0]

theorem exC1_threshold : clusterThreshold2 exC1Dice = 25 := by
  norm_num [clusterThreshold2, avgDieSize, exC1Dice, cDie]

theorem exC1_sorted : List.insertionSort dieXLe exC1Dice = exC1Dice := by
  decide

theorem exC1_clusters : clustersOf exC1Dice = [exC1Cluster, [cDie 1 7]] := by
  rw [clustersOf]
  rw [exC1_sorted, exC1_threshold]
  rw [show exC1Dice.length = 8 from rfl]
  norm_num [clusterLoopF, absorb, isNearCluster, dist2, exC1Dice, exC1Cluster, cDie]

/-- `exGen` with validation fields as `buildChain` would produce them for a
genesis block parked in column 1: structurally invalid, yet still the block
`findLongestChain` starts from. -/
def exBadGenV : ValidatedBlock :=
  { toDetectedBlock := { exGen with column := 1 }
    isGenesis := true
    predecessorId := none
    isValid := false
    errors := [.genesisWrongColumn, .genesisTotalMismatch 45 24]
    requiredColors := List.replicate 9 (some .blue) }

/-- `exGen` with its dice listed in reverse order. -/
def exGenP : DetectedBlock := { exGen with dice := (genesisColorsDice 5).reverse }

/-- A genesis-pattern block with its colors in scrambled order. -/
def exC6Block : DetectedBlock :=
  { id := "c6"
    dice := [mkDie .green 2, mkDie .red 3, mkDie .yellow 4, mkDie .orange 1,
      mkDie .green 6, mkDie .yellow 2, mkDie .red 5, mkDie .orange 2, mkDie .green 1]
    total := 26, trayColor := "#888888", position := ⟨0, 0⟩, column := 0 }

/-- C6 helper: sorting with the JS string order of color names is equal on
two lists iff they are permutations. -/
theorem sortColors_eq_iff_perm {l₁ l₂ : List DiceColor} :
    sortColors l₁ = sortColors l₂ ↔ l₁.Perm l₂ :=
  insertionSort_eq_iff_perm colorLe

theorem sortOptColors_eq_iff_perm {l₁ l₂ : List (Option DiceColor)} :
    sortOptColors l₁ = sortOptColors l₂ ↔ l₁.Perm l₂ :=
  insertionSort_eq_iff_perm optColorLe

/-- C6: `isGenesisBlock` holds exactly when the multiset of the block's die
colors is `{red×2, orange×2, yellow×2, green×3}`, independently of order. -/
theorem isGenesisBlock_iff_genesis_multiset (block : DetectedBlock) :
    isGenesisBlock block = true ↔
      (↑(block.dice.map (fun d => d.color)) : Multiset DiceColor) =
        ↑([DiceColor.red, .red, .orange, .orange, .yellow, .yellow,
           .green, .green, .green] : List DiceColor) := by
  rw [show ([DiceColor.red, .red, .orange, .orange, .yellow, .yellow,
      .green, .green, .green] : List DiceColor) = GENESIS_PATTERN from rfl]
  unfold isGenesisBlock
  rw [decide_eq_true_eq, sortColors_eq_iff_perm, Multiset.coe_eq_coe]

/-- C8: `canBePredecessor A B` holds iff the multiset of colors required by
A's pip values equals the multiset of B's die colors; consequently it is
invariant under reordering either block's dice. -/
theorem canBePredecessor_multiset_spec :
    (∀ A B : DetectedBlock,
      canBePredecessor A B = true ↔
        (↑(getRequiredColors A.dice) : Multiset (Option DiceColor)) =
          ↑((B.dice.map (fun d => d.color)).map some)) ∧
    (∀ A B A' B' : DetectedBlock, A.dice.Perm A'.dice → B.dice.Perm B'.dice →
      canBePredecessor A B = canBePredecessor A' B') := by
  have key : ∀ A B : DetectedBlock,
      canBePredecessor A B = true ↔
        (↑(getRequiredColors A.dice) : Multiset (Option DiceColor)) =
          ↑((B.dice.map (fun d => d.color)).map some) := by
    intro A B
    unfold canBePredecessor
    rw [decide_eq_true_eq, sortOptColors_eq_iff_perm, Multiset.coe_eq_coe]
  refine ⟨key, ?_⟩
  intro A B A' B' hA hB
  have h1 : (↑(getRequiredColors A.dice) : Multiset (Option DiceColor))
      = ↑(getRequiredColors A'.dice) := by
    exact Multiset.coe_eq_coe.mpr (hA.map _)
  have h2 : (↑((B.dice.map (fun d => d.color)).map some) : Multiset (Option DiceColor))
      = ↑((B'.dice.map (fun d => d.color)).map some) := by
    exact Multiset.coe_eq_coe.mpr ((hB.map _).map _)
  rw [Bool.eq_iff_iff, key, key, h1, h2]

/-- C10: `validateBlocks` reports one validated block per input block
(`totalBlocks` is the input length, and the output ids are a permutation of
the input ids), and its valid/invalid counts partition the total. -/
theorem validateBlocks_counts (blocks : List DetectedBlock) (difficulty : ℤ) :
    (validateBlocks blocks difficulty).totalBlocks = blocks.length ∧
    (validateBlocks blocks difficulty).validBlocks
        + (validateBlocks blocks difficulty).invalidBlocks
      = (validateBlocks blocks difficulty).totalBlocks ∧
    ((validateBlocks blocks difficulty).blocks.map (fun v => v.id)).Perm
      (blocks.map (fun b => b.id)) := by
  have hlen : (buildChain blocks difficulty).length = blocks.length := by
    unfold buildChain
    rcases blocks with _ | ⟨b0, rest⟩
    · rfl
    · rw [buildChainLoop_length]
      simp only [List.length_nil, Nat.zero_add, List.length_insertionSort]
      rw [assignColumns_length]
  have hids : ((buildChain blocks difficulty).map (fun v => v.id)).Perm
      (blocks.map (fun b => b.id)) := by
    unfold buildChain
    rcases blocks with _ | ⟨b0, rest⟩
    · simp
    · rw [buildChainLoop_ids]
      simp only [List.map_nil, List.nil_append]
      have hp := (List.perm_insertionSort columnLe (assignColumns (b0 :: rest))).map
        (fun b => b.id)
      rw [assignColumns_ids] at hp
      exact hp
  simp only [validateBlocks]
  exact ⟨hlen,
    (List.length_eq_length_filter_add (fun b : ValidatedBlock => b.isValid)).symm, hids⟩

/-- C1 counterexample: on `exC1Dice`, the dice at (1, 7) and (2, 3) are in
the same connected component of the specification's center-distance
threshold graph (they are directly adjacent), yet the code's single forward
pass puts them in different clusters, and the block `groupDiceIntoBlocks`
returns omits the (1, 7) die entirely.  So the clusters are not the
connected components. -/
theorem groupDice_clusters_not_components :
    Linked exC1Dice (cDie 1 7) (cDie 2 3) ∧
    ¬ sameCluster exC1Dice (cDie 1 7) (cDie 2 3) ∧
    (groupDiceIntoBlocks exC1Dice).map (fun blk => blk.dice) = [exC1Cluster] := by
  refine ⟨?_, ?_, ?_⟩
  · refine Relation.ReflTransGen.single ⟨by decide, by decide, ?_⟩
    rw [exC1_threshold]
    norm_num [centerDist2, dieCenterX, dieCenterY, cDie]
  · unfold sameCluster
    rw [exC1_clusters]
    decide
  · rw [show groupDiceIntoBlocks exC1Dice =
        ((clustersOf exC1Dice).filter
          (fun c => decide (7 ≤ c.length) && decide (c.length ≤ 11))).mapIdx
          (fun idx c => mkBlock idx c) from rfl]
    rw [exC1_clusters]
    decide

/-- C1 witness: the endpoints of the 7-die cluster the code forms are indeed
linked in the corner-distance threshold graph. -/
theorem groupDice_cluster_refines_witness :
    LinkedWithin (clusterThreshold2 exC1Dice) exC1Dice (cDie 0 0) (cDie 21 0) :=
  groupDice_cluster_refines_components exC1Dice exC1Cluster
    (by rw [exC1_clusters]; exact List.mem_cons_self _ _)
    (cDie 0 0) (by decide) (cDie 21 0) (by decide)

/-- C2 counterexample: a lone genesis-pattern block whose `isValid` flag is
false still yields the non-empty chain `["g"]`, so a non-empty result does
not require any *valid* genesis block. -/
theorem findLongestChain_nonempty_invalid_genesis :
    findLongestChain [exBadGenV] ≠ [] ∧
    (∀ b ∈ [exBadGenV], ¬(b.isGenesis = true ∧ b.isValid = true)) ∧
    findLongestChain [exBadGenV] = ["g"] := by
  decide

/-- C2 witness: the invalid genesis with no valid children yields exactly
the singleton of its id. -/
theorem findLongestChain_genesis_behavior_witness :
    findLongestChain [exBadGenV] = [exBadGenV.id] :=
  (findLongestChain_genesis_behavior [exBadGenV]).2.2 exBadGenV (by decide) (by decide)

/-- C3 witness: the amended column theorem applied to the two-genesis
example input. -/
theorem assignColumns_nonneg_first_genesis_witness :
    (∀ b ∈ assignColumns [exColG1, exColG2], 0 ≤ b.column) ∧
    (∀ g, [exColG1, exColG2].find? (fun b => isGenesisBlock b) = some g →
      ∃ b ∈ assignColumns [exColG1, exColG2],
        b.id = g.id ∧ b.position = g.position ∧ b.column = 0) :=
  assignColumns_nonneg_and_first_genesis [exColG1, exColG2] (by decide)

/-- C4 witness: the validated `exGen` (total 45 ≠ 24, column 0) is valid and
carries exactly the advisory total diagnostic. -/
theorem buildChain_genesis_validation_witness :
    (exGenV.isValid = true ↔ exGenV.column = 0) ∧
    (exGenV.column ≠ 0 → BuildErr.genesisWrongColumn ∈ exGenV.errors) ∧
    (BuildErr.genesisTotalMismatch exGenV.total 24 ∈ exGenV.errors ↔ exGenV.total ≠ 24) :=
  buildChain_genesis_validation [exGen, exB2] 25 exGenV
    (by rw [exChain_eval]; exact List.mem_cons_self _ _) rfl

/-- C5 witness: the validated `exB2` (total 9, difficulty 25) records no
threshold diagnostic. -/
theorem buildChain_difficulty_threshold_witness :
    (BuildErr.exceedsDifficulty exB2V.total 25 ∈ exB2V.errors ↔ 25 < exB2V.total) ∧
    (25 < exB2V.total → exB2V.isValid = false) :=
  buildChain_difficulty_threshold [exGen, exB2] 25 exB2V
    (by rw [exChain_eval]; exact List.mem_cons_of_mem _ (List.mem_cons_self _ _)) rfl

/-- C6 witness: a scrambled genesis-pattern block is recognized as genesis. -/
theorem isGenesisBlock_multiset_witness : isGenesisBlock exC6Block = true :=
  (isGenesisBlock_iff_genesis_multiset exC6Block).mpr (by decide)

/-- C7 witness: the id after the genesis in the longest chain of the example
run names a valid block of the result. -/
theorem validateBlocks_longestChain_refs_witness :
    ∃ b ∈ (validateBlocks [exGen, exB2] 25).blocks, b.id = "b2" ∧ b.isValid = true := by
  have hlc : (validateBlocks [exGen, exB2] 25).longestChain = ["g", "b2"] := by
    show findLongestChain (buildChain [exGen, exB2] 25) = ["g", "b2"]
    rw [exChain_eval]
    decide
  refine (validateBlocks_longestChain_refs [exGen, exB2] 25).1 "b2" ?_
  rw [show (validateBlocks [exGen, exB2] 25).longestChain.tail
      = ["b2"] from by rw [hlc]; rfl]
  exact List.mem_cons_self _ _

/-- C8 witness: `exGen` can precede `exB2`, and reversing `exGen`'s dice
does not change the answer. -/
theorem canBePredecessor_multiset_witness :
    canBePredecessor exGen exB2 = true ∧
    canBePredecessor exGen exB2 = canBePredecessor exGenP exB2 :=
  ⟨(canBePredecessor_multiset_spec.1 exGen exB2).mpr (by decide),
   canBePredecessor_multiset_spec.2 exGen exB2 exGenP exB2 (by decide) (by decide)⟩

/-- C9 witness: in the example run, `exB2V`'s recorded predecessor sits one
column below it, and the DFS result is unchanged by surplus fuel. -/
theorem buildChain_pred_column_dfs_terminates_witness :
    (∃ u ∈ buildChain [exGen, exB2] 25,
      u.id = "g" ∧ u.column = exB2V.column - 1 ∧ u.isValid = true) ∧
    findLongestFromNode (childrenOf (buildChain [exGen, exB2] 25)) 5 "g"
      = findLongestFromNode (childrenOf (buildChain [exGen, exB2] 25))
          (buildChain [exGen, exB2] 25).length "g" := by
  constructor
  · exact (buildChain_pred_column_dfs_terminates [exGen, exB2] 25).1 exB2V
      (by rw [exChain_eval]; exact List.mem_cons_of_mem _ (List.mem_cons_self _ _))
      "g" rfl
  · exact (buildChain_pred_column_dfs_terminates [exGen, exB2] 25).2
      (by rw [exChain_eval]; decide) "g" 5 (by rw [exChain_eval]; decide)

end DiceMining
